/-
Shallow embedding of the broadcasting engine in src/broadcasting.py.

Arrays are modelled as a shape (list of axis sizes, outermost first) plus a
flat row-major data list of integers.  numpy primitives used by the source
are modelled as follows:
  * np.resize(a, shape)   -> resize: cycles the flat data to the new total
    size (filling with 0 when the source is empty), per numpy semantics;
  * arr[tuple]            -> lookupCoord: row-major flat lookup;
  * np.ndindex(*shape)    -> ndindex: lexicographic coordinate enumeration
    (last axis fastest);
  * the ndindex fill loop of add writes every output coordinate exactly
    once, in order, so the output data is the map of the summand over the
    lexicographic coordinate list;
  * raise ValueError(...) -> Except.error carrying the two shapes that the
    message interpolates (spec name: BroadcastError).
addSt is a store-passing variant of add used to reason about mutation:
arrays live in a store (heap) and the only subscript-assignment in the
source, out[indices] = ..., becomes an in-place write at the output's
store index.
-/
import Mathlib

namespace Broadcasting

structure Arr where
  shape : List Nat
  data : List Int
  deriving DecidableEq

structure BroadcastError where
  shape : List Nat
  shape2 : List Nat
  deriving DecidableEq

/-- Python min/max of a two-element tuple with a key function: each returns
the first element attaining the optimum. -/
def minmax {α : Type} (arg arg2 : α) (key : α → Nat) : α × α :=
  ((if key arg2 < key arg then arg2 else arg),
   (if key arg < key arg2 then arg2 else arg))

/-- Model of np.resize: a fresh array of the new shape whose flat data
cycles the source's flat data (zeros if the source is empty). -/
def resize (a : Arr) (newShape : List Nat) : Arr :=
  ⟨newShape, (List.range newShape.prod).map
    (fun n => if a.data.length = 0 then 0 else a.data.getD (n % a.data.length) 0)⟩

def match_dimensions (arr arr2 : Arr) : Arr × Arr :=
  if arr.shape.length = arr2.shape.length then (arr, arr2)
  else
    let p := minmax arr arr2 (fun x => x.shape.length)
    let difference := p.2.shape.length - p.1.shape.length
    (resize p.1 (List.replicate difference 1 ++ p.1.shape), p.2)

/-- The loop body of broadcasted_shape: walk the list of (dim, dim2) pairs
(innermost axis first), prepending each result axis to the accumulator;
on a bad pair, raise carrying the two shape arguments. -/
def bsGo (shape shape2 : List Nat) :
    List (Nat × Nat) → List Nat → Except BroadcastError (List Nat)
  | [], acc => .ok acc
  | (d, d2) :: rest, acc =>
    if d = d2 ∨ d2 = 1 then bsGo shape shape2 rest (d :: acc)
    else if d = 1 then bsGo shape shape2 rest (d2 :: acc)
    else .error ⟨shape, shape2⟩

def broadcasted_shape (shape shape2 : List Nat) : Except BroadcastError (List Nat) :=
  bsGo shape shape2 (shape.reverse.zip shape2.reverse) []

/-- Row-major linear index of a coordinate in a shape. -/
def flatIndex : List Nat → List Nat → Nat
  | _ :: s, idx :: c => idx * s.prod + flatIndex s c
  | _, _ => 0

/-- Model of arr[tuple]: row-major flat lookup. -/
def lookupCoord (a : Arr) (c : List Nat) : Int :=
  a.data.getD (flatIndex a.shape c) 0

def get_item (a : Arr) (c : List Nat) : Int :=
  lookupCoord a (List.zipWith (fun d idx => if d = 1 then 0 else idx) a.shape c)

/-- Model of np.ndindex: all coordinates of a shape in lexicographic order
(last axis varies fastest). -/
def ndindex : List Nat → List (List Nat)
  | [] => [[]]
  | d :: s => ((List.range d).map (fun i => (ndindex s).map (fun c => i :: c))).flatten

def add (arr arr2 : Arr) : Except BroadcastError Arr :=
  let p := match_dimensions arr arr2
  match broadcasted_shape p.1.shape p.2.shape with
  | .error e => .error e
  | .ok s => .ok ⟨s, (ndindex s).map (fun c => get_item p.1 c + get_item p.2 c)⟩

/-- A coordinate is within a shape's bounds: same rank, every component
strictly below the corresponding axis size. -/
def inBounds : List Nat → List Nat → Prop
  | [], [] => True
  | d :: s, idx :: c => idx < d ∧ inBounds s c
  | _, _ => False

instance instDecInBounds : (s c : List Nat) → Decidable (inBounds s c)
  | [], [] => .isTrue trivial
  | [], _ :: _ => .isFalse fun h => h
  | _ :: _, [] => .isFalse fun h => h
  | d :: s, idx :: c =>
    have : Decidable (inBounds s c) := instDecInBounds s c
    inferInstanceAs (Decidable (idx < d ∧ inBounds s c))

/-- Store-passing variant of add: arrays live in a store, the inputs are
given by their store indices, the output is freshly appended and then
filled in place, one write per output coordinate (the out[indices] = ...
loop of the source). -/
def writeAt (store : List Arr) (k flat : Nat) (v : Int) : List Arr :=
  store.set k (let a := store.getD k ⟨[], []⟩; ⟨a.shape, a.data.set flat v⟩)

def addSt (store : List Arr) (i j : Nat) : List Arr × Except BroadcastError Nat :=
  let a := store.getD i ⟨[], []⟩
  let b := store.getD j ⟨[], []⟩
  let p := match_dimensions a b
  match broadcasted_shape p.1.shape p.2.shape with
  | .error e => (store, .error e)
  | .ok s =>
    let k := store.length
    let store1 := store ++ [⟨s, List.replicate s.prod 0⟩]
    ((ndindex s).foldl
      (fun st c => writeAt st k (flatIndex s c) (get_item p.1 c + get_item p.2 c))
      store1, .ok k)

/-! ### Helper lemmas about coordinate enumeration and indexing -/

lemma getD_map_of_lt {α β : Type} (f : α → β) (l : List α) (n : Nat)
    (hn : n < l.length) (d : β) (d2 : α) :
    (l.map f).getD n d = f (l.getD n d2) := by
  rw [List.getD_eq_getElem _ _ (by simpa using hn), List.getD_eq_getElem _ _ hn,
    List.getElem_map]

lemma flatten_map_range_length {α : Type} (g : Nat → List α) (L : Nat)
    (hg : ∀ i, (g i).length = L) :
    ∀ d, (((List.range d).map g).flatten).length = d * L := by
  intro d
  induction d with
  | zero => simp
  | succ n ih =>
    rw [List.range_succ, List.map_append, List.flatten_append, List.length_append, ih]
    simp [hg, Nat.succ_mul]

lemma flatten_map_range_getD {α : Type} (g : Nat → List α) (L : Nat)
    (hg : ∀ i, (g i).length = L) (dflt : α) :
    ∀ d i k, i < d → k < L →
      (((List.range d).map g).flatten).getD (i * L + k) dflt = (g i).getD k dflt := by
  intro d
  induction d with
  | zero => omega
  | succ n ih =>
    intro i k hi hk
    rw [List.range_succ, List.map_append, List.flatten_append]
    by_cases hin : i < n
    · rw [List.getD_append]
      · exact ih i k hin hk
      · calc i * L + k < i * L + L := by omega
          _ = (i + 1) * L := by ring
          _ ≤ n * L := Nat.mul_le_mul_right L (by omega)
          _ = (((List.range n).map g).flatten).length :=
            (flatten_map_range_length g L hg n).symm
    · have hieq : i = n := by omega
      subst hieq
      rw [List.getD_append_right]
      · rw [flatten_map_range_length g L hg i]
        simp
      · rw [flatten_map_range_length g L hg i]; omega

lemma ndindex_length : ∀ s : List Nat, (ndindex s).length = s.prod
  | [] => rfl
  | d :: s => by
    rw [ndindex, flatten_map_range_length _ (ndindex s).length (fun i => List.length_map _ _),
      ndindex_length s, List.prod_cons]

lemma flatIndex_lt_prod : ∀ s c : List Nat, inBounds s c → flatIndex s c < s.prod
  | [], [] => fun _ => Nat.zero_lt_one
  | [], _ :: _ => fun h => absurd h (fun h => h)
  | _ :: _, [] => fun h => absurd h (fun h => h)
  | d :: s, idx :: c => by
    rintro ⟨hi, hc⟩
    have ih := flatIndex_lt_prod s c hc
    rw [flatIndex, List.prod_cons]
    calc idx * s.prod + flatIndex s c < idx * s.prod + s.prod := by omega
      _ = (idx + 1) * s.prod := by ring
      _ ≤ d * s.prod := Nat.mul_le_mul_right s.prod (by omega)

lemma ndindex_getD : ∀ s c : List Nat, inBounds s c →
    (ndindex s).getD (flatIndex s c) [] = c
  | [], [] => fun _ => rfl
  | [], _ :: _ => fun h => absurd h (fun h => h)
  | _ :: _, [] => fun h => absurd h (fun h => h)
  | d :: s, idx :: c => by
    rintro ⟨hi, hc⟩
    have hL : (ndindex s).length = s.prod := ndindex_length s
    rw [ndindex, flatIndex, ← hL]
    rw [flatten_map_range_getD _ (ndindex s).length (fun i => List.length_map _ _) _ d idx
      (flatIndex s c) hi (by rw [hL]; exact flatIndex_lt_prod s c hc)]
    rw [getD_map_of_lt _ _ _ (by rw [hL]; exact flatIndex_lt_prod s c hc) _ []]
    rw [ndindex_getD s c hc]

lemma inBounds_iff : ∀ s c : List Nat, inBounds s c ↔
    c.length = s.length ∧ ∀ i, i < s.length → c.getD i 0 < s.getD i 0
  | [], [] => by simp [inBounds]
  | [], x :: c => by simp [inBounds]
  | d :: s, [] => by simp [inBounds]
  | d :: s, x :: c => by
    rw [inBounds, inBounds_iff s c]
    constructor
    · rintro ⟨hx, hlen, hall⟩
      refine ⟨by simp [hlen], ?_⟩
      intro i hi
      cases i with
      | zero => simpa using hx
      | succ jIdx =>
        simp only [List.getD_cons_succ]
        exact hall jIdx (by simpa using hi)
    · rintro ⟨hlen, hall⟩
      refine ⟨by simpa using hall 0 (by simp), by simpa using hlen, ?_⟩
      intro i hi
      have := hall (i + 1) (by simp only [List.length_cons]; omega)
      simpa using this

/-! ### Helper lemmas about the broadcast-shape scan -/

/-- An axis pair on which broadcasting fails: unequal, and neither side 1. -/
def badAxis (d d2 : Nat) : Prop := d ≠ d2 ∧ d ≠ 1 ∧ d2 ≠ 1

instance (d d2 : Nat) : Decidable (badAxis d d2) := by
  unfold badAxis; infer_instance

/-- The axis the scan keeps for a compatible pair. -/
def pickAxis (d d2 : Nat) : Nat := if d = d2 ∨ d2 = 1 then d else d2

lemma bsGo_error_iff (s1 s2 : List Nat) :
    ∀ (l : List (Nat × Nat)) (acc : List Nat),
      (∃ e, bsGo s1 s2 l acc = .error e) ↔ ∃ p ∈ l, badAxis p.1 p.2
  | [], acc => by simp [bsGo]
  | (d, d2) :: rest, acc => by
    by_cases h1 : d = d2 ∨ d2 = 1
    · rw [bsGo, if_pos h1]
      rw [bsGo_error_iff s1 s2 rest (d :: acc)]
      simp only [List.mem_cons]
      constructor
      · rintro ⟨p, hp, hbad⟩; exact ⟨p, Or.inr hp, hbad⟩
      · rintro ⟨p, hp | hp, hbad⟩
        · subst hp; exact absurd h1 (not_or.mpr ⟨hbad.1, hbad.2.2⟩)
        · exact ⟨p, hp, hbad⟩
    · by_cases h2 : d = 1
      · rw [bsGo, if_neg h1, if_pos h2]
        rw [bsGo_error_iff s1 s2 rest (d2 :: acc)]
        simp only [List.mem_cons]
        constructor
        · rintro ⟨p, hp, hbad⟩; exact ⟨p, Or.inr hp, hbad⟩
        · rintro ⟨p, hp | hp, hbad⟩
          · subst hp; exact absurd h2 hbad.2.1
          · exact ⟨p, hp, hbad⟩
      · rw [bsGo, if_neg h1, if_neg h2]
        push_neg at h1
        constructor
        · intro _; exact ⟨(d, d2), List.mem_cons_self _ _, ⟨h1.1, h2, h1.2⟩⟩
        · intro _; exact ⟨⟨s1, s2⟩, rfl⟩

lemma bsGo_error_payload (s1 s2 : List Nat) :
    ∀ (l : List (Nat × Nat)) (acc : List Nat) (e : BroadcastError),
      bsGo s1 s2 l acc = .error e → e = ⟨s1, s2⟩
  | [], acc, e => by simp [bsGo]
  | (d, d2) :: rest, acc, e => by
    by_cases h1 : d = d2 ∨ d2 = 1
    · rw [bsGo, if_pos h1]; exact bsGo_error_payload s1 s2 rest (d :: acc) e
    · by_cases h2 : d = 1
      · rw [bsGo, if_neg h1, if_pos h2]; exact bsGo_error_payload s1 s2 rest (d2 :: acc) e
      · rw [bsGo, if_neg h1, if_neg h2]
        intro h
        cases h
        rfl

lemma bsGo_swap (s1 s2 : List Nat) :
    ∀ (l : List (Nat × Nat)) (acc : List Nat),
      bsGo s2 s1 (l.map Prod.swap) acc =
        (bsGo s1 s2 l acc).mapError (fun _ => ⟨s2, s1⟩)
  | [], acc => by simp [bsGo, Except.mapError]
  | (d, d2) :: rest, acc => by
    rw [List.map_cons, Prod.swap_prod_mk]
    simp only [bsGo]
    by_cases h1 : d = d2
    · subst h1
      rw [if_pos (Or.inl rfl), if_pos (Or.inl rfl)]
      exact bsGo_swap s1 s2 rest (d :: acc)
    · by_cases h2 : d2 = 1
      · subst h2
        have hd1 : d ≠ 1 := h1
        rw [if_neg (by simp [hd1, Ne.symm hd1] : ¬((1 : Nat) = d ∨ d = 1)),
          if_pos rfl, if_pos (Or.inr rfl)]
        exact bsGo_swap s1 s2 rest (d :: acc)
      · by_cases h3 : d = 1
        · subst h3
          rw [if_pos (Or.inr rfl : d2 = 1 ∨ (1 : Nat) = 1),
            if_neg (by simp [h1, h2] : ¬((1 : Nat) = d2 ∨ d2 = 1)), if_pos rfl]
          exact bsGo_swap s1 s2 rest (d2 :: acc)
        · rw [if_neg (by simp [Ne.symm h1, h3] : ¬(d2 = d ∨ d = 1)), if_neg h2,
            if_neg (by simp [h1, h2] : ¬(d = d2 ∨ d2 = 1)), if_neg h3]
          rfl

lemma bsGo_ok_of_good (s1 s2 : List Nat) :
    ∀ (l : List (Nat × Nat)) (acc : List Nat),
      (∀ p ∈ l, ¬ badAxis p.1 p.2) →
      bsGo s1 s2 l acc = .ok ((l.map (fun p => pickAxis p.1 p.2)).reverse ++ acc)
  | [], acc => by simp [bsGo]
  | (d, d2) :: rest, acc => by
    intro hgood
    have hrest : ∀ p ∈ rest, ¬ badAxis p.1 p.2 :=
      fun p hp => hgood p (List.mem_cons_of_mem _ hp)
    have hhead : ¬ badAxis d d2 := hgood (d, d2) (List.mem_cons_self _ _)
    simp only [bsGo]
    by_cases h1 : d = d2 ∨ d2 = 1
    · rw [if_pos h1, bsGo_ok_of_good s1 s2 rest (d :: acc) hrest]
      simp [pickAxis, if_pos h1]
    · have h2 : d = 1 := by
        by_contra h2
        exact hhead ⟨fun h => h1 (Or.inl h), h2, fun h => h1 (Or.inr h)⟩
      rw [if_neg h1, if_pos h2, bsGo_ok_of_good s1 s2 rest (d2 :: acc) hrest]
      simp [pickAxis, if_neg h1]

/-- On equal-rank compatible shapes the scan succeeds and keeps, on each
axis, the non-1 side (the left side when they agree or the right is 1). -/
lemma broadcasted_shape_ok_of_compat (s1 s2 : List Nat) (hlen : s1.length = s2.length)
    (hcompat : ∀ p ∈ s1.zip s2, ¬ badAxis p.1 p.2) :
    broadcasted_shape s1 s2 = .ok (List.zipWith pickAxis s1 s2) := by
  rw [broadcasted_shape]
  have hrevlen : s1.reverse.length = s2.reverse.length := by simpa using hlen
  have hmem : ∀ p ∈ s1.reverse.zip s2.reverse, ¬ badAxis p.1 p.2 := by
    intro p hp
    apply hcompat
    rw [List.zip_eq_zipWith, ← List.reverse_zipWith hlen, List.mem_reverse] at hp
    rw [List.zip_eq_zipWith]
    exact hp
  rw [bsGo_ok_of_good s1 s2 _ [] hmem, List.append_nil, List.zip_eq_zipWith,
    List.map_zipWith, List.reverse_zipWith hrevlen, List.reverse_reverse,
    List.reverse_reverse]

/-! ### Helper lemmas about rank alignment and resize -/

/-- On differing ranks, match_dimensions returns the padded lower-rank
array first and the higher-rank array second, whatever the operand order. -/
lemma match_dimensions_eq (a b : Arr) (h : a.shape.length ≠ b.shape.length) :
    match_dimensions a b =
      (resize (if a.shape.length ≤ b.shape.length then a else b)
        (List.replicate
          ((if a.shape.length ≤ b.shape.length then b else a).shape.length -
            (if a.shape.length ≤ b.shape.length then a else b).shape.length) 1 ++
          (if a.shape.length ≤ b.shape.length then a else b).shape),
       if a.shape.length ≤ b.shape.length then b else a) := by
  rw [match_dimensions, if_neg h]
  by_cases hle : a.shape.length ≤ b.shape.length
  · have hlt : a.shape.length < b.shape.length := by omega
    simp only [minmax, if_neg (by omega : ¬ b.shape.length < a.shape.length),
      if_pos hlt, if_pos hle]
  · have hlt : b.shape.length < a.shape.length := by omega
    simp only [minmax, if_pos hlt, if_neg (by omega : ¬ a.shape.length < b.shape.length),
      if_neg hle]

/-- Resizing a well-formed array to a shape of the same total size copies
the flat data unchanged. -/
lemma resize_data_eq (a : Arr) (newShape : List Nat)
    (hsize : newShape.prod = a.data.length) :
    (resize a newShape).data = a.data := by
  rw [resize]
  rcases Nat.eq_zero_or_pos a.data.length with hz | hpos
  · simp [hsize, hz, List.eq_nil_of_length_eq_zero hz]
  · apply List.ext_getElem
    · simp [hsize]
    · intro n h₁ h₂
      have hn : n < a.data.length := by simpa [hsize] using h₂
      rw [List.getElem_map, List.getElem_range]
      rw [if_neg (by omega)]
      rw [Nat.mod_eq_of_lt (by simpa [hsize] using hn)]
      rw [List.getD_eq_getElem _ _ hn]

lemma prod_replicate_one_append (d : Nat) (s : List Nat) :
    (List.replicate d 1 ++ s).prod = s.prod := by
  rw [List.prod_append, List.prod_replicate, one_pow, one_mul]

/-- Leading size-1 axes with zero components do not move the flat index. -/
lemma flatIndex_replicate_pad (d : Nat) (s c : List Nat) :
    flatIndex (List.replicate d 1 ++ s) (List.replicate d 0 ++ c) = flatIndex s c := by
  induction d with
  | zero => simp
  | succ n ih =>
    rw [List.replicate_succ, List.replicate_succ, List.cons_append, List.cons_append,
      flatIndex, ih, Nat.zero_mul, Nat.zero_add]

/-! ### Helper lemmas about the store-passing adder -/

lemma writeAt_getD_ne (store : List Arr) (k flat : Nat) (v : Int) (m : Nat)
    (hmk : m ≠ k) :
    (writeAt store k flat v).getD m ⟨[], []⟩ = store.getD m ⟨[], []⟩ := by
  rw [writeAt, List.getD_eq_getElem?_getD, List.getElem?_set_ne (Ne.symm hmk),
    ← List.getD_eq_getElem?_getD]

lemma foldl_writeAt_getD (k : Nat) (idx : List Nat → Nat) (g : List Nat → Int)
    (m : Nat) (hmk : m ≠ k) :
    ∀ (l : List (List Nat)) (st : List Arr),
      ((l.foldl (fun st c => writeAt st k (idx c) (g c)) st)).getD m ⟨[], []⟩ =
        st.getD m ⟨[], []⟩
  | [], st => rfl
  | c :: rest, st => by
    rw [List.foldl_cons, foldl_writeAt_getD k idx g m hmk rest _,
      writeAt_getD_ne _ _ _ _ _ hmk]

/-! ### Concrete arrays used by witnesses and counterexamples -/

def exA : Arr := ⟨[2, 3], [1, 2, 3, 4, 5, 6]⟩

def exB : Arr := ⟨[1, 3], [10, 20, 30]⟩

def exC : Arr := ⟨[3], [10, 20, 30]⟩

def exD : Arr := ⟨[4], [1, 2, 3, 4]⟩

/-! ### Claim theorems -/

/-- Claim C8: on equal-rank inputs the rank aligner is a no-op, returning
both operands unchanged regardless of the shapes' contents. -/
theorem match_dimensions_equal_rank_noop (a b : Arr)
    (h : a.shape.length = b.shape.length) :
    match_dimensions a b = (a, b) := by
  rw [match_dimensions, if_pos h]

theorem match_dimensions_equal_rank_noop_witness :
    exA.shape.length = exA.shape.length ∧ match_dimensions exA exA = (exA, exA) ∧
    exA.shape.length = exB.shape.length ∧ match_dimensions exA exB = (exA, exB) :=
  ⟨rfl, match_dimensions_equal_rank_noop exA exA rfl, rfl,
    match_dimensions_equal_rank_noop exA exB rfl⟩

/-- Claim C4 counterexample: with a higher-rank first operand (shape [2,3])
and a lower-rank second operand (shape [3]), the aligner does NOT return
the pair in operand order (paddedA, paddedB): the first component of its
result is the padded second operand, not the (unchanged) first operand. -/
theorem match_dimensions_operand_order_cex :
    match_dimensions exA exC = (⟨[1, 3], [10, 20, 30]⟩, exA) ∧
    match_dimensions exA exC ≠ (exA, ⟨[1, 3], [10, 20, 30]⟩) ∧
    exA.shape.length = 2 ∧ exC.shape.length = 1 :=
  ⟨rfl, by decide, rfl, rfl⟩

/-- Claim C4 amended: for differing ranks the aligner always returns the
pair (paddedLower, higherUnchanged) — the lower-rank operand, with
rank-difference leading size-1 axes prepended, comes first and the
higher-rank operand unchanged second, regardless of operand order; and it
is total (never fails). -/
theorem match_dimensions_sorted_order (a b : Arr)
    (h : a.shape.length ≠ b.shape.length) :
    match_dimensions a b =
      (resize (if a.shape.length ≤ b.shape.length then a else b)
        (List.replicate
          ((if a.shape.length ≤ b.shape.length then b else a).shape.length -
            (if a.shape.length ≤ b.shape.length then a else b).shape.length) 1 ++
          (if a.shape.length ≤ b.shape.length then a else b).shape),
       if a.shape.length ≤ b.shape.length then b else a) ∧
    (match_dimensions a b).1.shape =
      List.replicate
          ((if a.shape.length ≤ b.shape.length then b else a).shape.length -
            (if a.shape.length ≤ b.shape.length then a else b).shape.length) 1 ++
        (if a.shape.length ≤ b.shape.length then a else b).shape :=
  ⟨match_dimensions_eq a b h, by rw [match_dimensions_eq a b h]; rfl⟩

theorem match_dimensions_sorted_order_witness :
    exA.shape.length ≠ exC.shape.length ∧
    (match_dimensions exA exC =
      (resize (if exA.shape.length ≤ exC.shape.length then exA else exC)
        (List.replicate
          ((if exA.shape.length ≤ exC.shape.length then exC else exA).shape.length -
            (if exA.shape.length ≤ exC.shape.length then exA else exC).shape.length) 1 ++
          (if exA.shape.length ≤ exC.shape.length then exA else exC).shape),
       if exA.shape.length ≤ exC.shape.length then exC else exA) ∧
    (match_dimensions exA exC).1.shape =
      List.replicate
          ((if exA.shape.length ≤ exC.shape.length then exC else exA).shape.length -
            (if exA.shape.length ≤ exC.shape.length then exA else exC).shape.length) 1 ++
        (if exA.shape.length ≤ exC.shape.length then exA else exC).shape) :=
  ⟨by decide, match_dimensions_sorted_order exA exC (by decide)⟩

/-- Claim C3 counterexample: for inputs of shapes [2,3] and [4] (ranks
differ, incompatible), the error raised by add carries the rank-padded,
reordered shapes ([1,4] and [2,3]) — not the original input shapes
([2,3] and [4]). -/
theorem add_error_original_shapes_cex :
    add exA exD = .error ⟨[1, 4], [2, 3]⟩ ∧
    exA.shape = [2, 3] ∧ exD.shape = [4] ∧
    (⟨[1, 4], [2, 3]⟩ : BroadcastError) ≠ ⟨[2, 3], [4]⟩ :=
  ⟨rfl, rfl, rfl, by decide⟩

/-- Claim C3 amended: the BroadcastError raised by add carries the two
post-alignment shapes in the order the aligner returns them (padded
lower-rank shape first, higher-rank shape second when ranks differ; the
original shapes in operand order when ranks are equal). -/
theorem add_error_reports_aligned_shapes (a b : Arr) (e : BroadcastError)
    (h : add a b = .error e) :
    e = ⟨(match_dimensions a b).1.shape, (match_dimensions a b).2.shape⟩ := by
  simp only [add] at h
  cases hbs : broadcasted_shape (match_dimensions a b).1.shape
      (match_dimensions a b).2.shape with
  | error e2 =>
    rw [hbs] at h
    simp only at h
    cases h
    exact bsGo_error_payload _ _ _ _ _ hbs
  | ok s =>
    rw [hbs] at h
    exact Except.noConfusion h

theorem add_error_reports_aligned_shapes_witness :
    add exA exD = .error ⟨[1, 4], [2, 3]⟩ ∧
    (⟨[1, 4], [2, 3]⟩ : BroadcastError) =
      ⟨(match_dimensions exA exD).1.shape, (match_dimensions exA exD).2.shape⟩ :=
  ⟨rfl, add_error_reports_aligned_shapes exA exD ⟨[1, 4], [2, 3]⟩ rfl⟩

/-- Claim C7: the broadcast-shape computation is symmetric on equal-rank
shapes: both operand orders succeed with the same shape, and they raise
under exactly the same conditions. -/
theorem broadcasted_shape_symm (s1 s2 : List Nat) (h : s1.length = s2.length) :
    (∀ r, broadcasted_shape s1 s2 = .ok r ↔ broadcasted_shape s2 s1 = .ok r) ∧
    ((∃ e, broadcasted_shape s1 s2 = .error e) ↔
      ∃ e, broadcasted_shape s2 s1 = .error e) := by
  have key : broadcasted_shape s2 s1 =
      (broadcasted_shape s1 s2).mapError (fun _ => ⟨s2, s1⟩) := by
    rw [broadcasted_shape, broadcasted_shape, ← List.zip_swap s1.reverse s2.reverse,
      bsGo_swap]
  constructor
  · intro r
    rw [key]
    cases broadcasted_shape s1 s2 <;> simp [Except.mapError]
  · rw [key]
    cases broadcasted_shape s1 s2 <;> simp [Except.mapError]

theorem broadcasted_shape_symm_witness :
    ([2, 3] : List Nat).length = ([1, 3] : List Nat).length ∧
    ((∀ r, broadcasted_shape [2, 3] [1, 3] = .ok r ↔
        broadcasted_shape [1, 3] [2, 3] = .ok r) ∧
      ((∃ e, broadcasted_shape [2, 3] [1, 3] = .error e) ↔
        ∃ e, broadcasted_shape [1, 3] [2, 3] = .error e)) :=
  ⟨rfl, broadcasted_shape_symm [2, 3] [1, 3] rfl⟩

/-- Claim C2: on equal-rank shapes the broadcast-shape computation raises
exactly when, scanning the aligned shapes from the innermost axis outward,
some axis pair has unequal values with neither value 1; and add on arrays
of such shapes fails with exactly that error (an Except.error, so no
partial output exists). -/
theorem broadcast_error_iff (s1 s2 : List Nat) (h : s1.length = s2.length) :
    ((∃ e, broadcasted_shape s1 s2 = .error e) ↔
      ∃ p ∈ s1.reverse.zip s2.reverse, badAxis p.1 p.2) ∧
    (∀ a b : Arr, a.shape = s1 → b.shape = s2 → ∀ e,
      (add a b = .error e ↔ broadcasted_shape s1 s2 = .error e)) := by
  constructor
  · rw [broadcasted_shape]
    exact bsGo_error_iff s1 s2 _ []
  · intro a b ha hb e
    subst ha
    subst hb
    have hmd : match_dimensions a b = (a, b) := by
      rw [match_dimensions, if_pos h]
    simp only [add, hmd]
    cases hbs : broadcasted_shape a.shape b.shape with
    | error e2 => simp
    | ok s => simp

theorem broadcast_error_iff_witness :
    ([2, 3] : List Nat).length = ([4] : List Nat).length + 1 ∧
    ([1, 4] : List Nat).length = ([2, 3] : List Nat).length ∧
    (((∃ e, broadcasted_shape [1, 4] [2, 3] = .error e) ↔
      ∃ p ∈ ([1, 4] : List Nat).reverse.zip ([2, 3] : List Nat).reverse,
        badAxis p.1 p.2) ∧
    (∀ a b : Arr, a.shape = [1, 4] → b.shape = [2, 3] → ∀ e,
      (add a b = .error e ↔ broadcasted_shape [1, 4] [2, 3] = .error e))) :=
  ⟨rfl, rfl, broadcast_error_iff [1, 4] [2, 3] rfl⟩

/-- Claim C1: whenever the two aligned shapes broadcast successfully, add
succeeds with an array of the broadcast shape whose every in-bounds
coordinate holds the sum of the two stretch-indexed (aligned) input
elements. -/
theorem add_broadcast_correct (a b : Arr) (s : List Nat)
    (h : broadcasted_shape (match_dimensions a b).1.shape
      (match_dimensions a b).2.shape = .ok s) :
    ∃ out, add a b = .ok out ∧ out.shape = s ∧
      ∀ c, inBounds s c →
        lookupCoord out c =
          get_item (match_dimensions a b).1 c + get_item (match_dimensions a b).2 c := by
  refine ⟨⟨s, (ndindex s).map (fun c => get_item (match_dimensions a b).1 c +
    get_item (match_dimensions a b).2 c)⟩, ?_, rfl, ?_⟩
  · simp only [add]
    rw [h]
  · intro c hc
    rw [lookupCoord]
    have hlt : flatIndex s c < (ndindex s).length := by
      rw [ndindex_length]
      exact flatIndex_lt_prod s c hc
    rw [getD_map_of_lt _ _ _ hlt _ [], ndindex_getD s c hc]

theorem add_broadcast_correct_witness :
    broadcasted_shape (match_dimensions exA exB).1.shape
      (match_dimensions exA exB).2.shape = .ok [2, 3] ∧
    (∃ out, add exA exB = .ok out ∧ out.shape = [2, 3] ∧
      ∀ c, inBounds [2, 3] c →
        lookupCoord out c =
          get_item (match_dimensions exA exB).1 c +
            get_item (match_dimensions exA exB).2 c) ∧
    add exA exB = .ok ⟨[2, 3], [11, 22, 33, 14, 25, 36]⟩ :=
  ⟨rfl, add_broadcast_correct exA exB [2, 3] rfl, rfl⟩

/-- Claim C6: the stretched indexer returns the element of the array at
the coordinate obtained by zeroing each component whose axis has size 1
and keeping every other component; that looked-up coordinate is moreover
within the array's own bounds whenever the given coordinate is within the
broadcast output shape's bounds. -/
theorem get_item_stretch (a : Arr) (s c c' : List Nat)
    (hrank : a.shape.length = s.length) (hclen : c.length = s.length)
    (hcompat : ∀ i, i < s.length →
      a.shape.getD i 0 = s.getD i 0 ∨ a.shape.getD i 0 = 1)
    (hc : ∀ i, i < s.length → c.getD i 0 < s.getD i 0)
    (hc'len : c'.length = s.length)
    (hc' : ∀ i, i < s.length →
      (a.shape.getD i 0 = 1 → c'.getD i 0 = 0) ∧
      (a.shape.getD i 0 ≠ 1 → c'.getD i 0 = c.getD i 0)) :
    get_item a c = lookupCoord a c' ∧ inBounds a.shape c' := by
  have hz : List.zipWith (fun d idx => if d = 1 then 0 else idx) a.shape c = c' := by
    apply List.ext_getElem
    · rw [List.length_zipWith, hrank, hclen, hc'len]
      simp
    · intro n h₁ h₂
      have hn : n < s.length := by
        rw [List.length_zipWith, hrank, hclen] at h₁
        simpa using h₁
      have hsh : n < a.shape.length := hrank ▸ hn
      have hcn : n < c.length := hclen ▸ hn
      have hc'n : n < c'.length := hc'len ▸ hn
      rw [List.getElem_zipWith, ← List.getD_eq_getElem a.shape 0 hsh,
        ← List.getD_eq_getElem c 0 hcn, ← List.getD_eq_getElem c' 0 hc'n]
      by_cases h1 : a.shape.getD n 0 = 1
      · rw [if_pos h1, (hc' n hn).1 h1]
      · rw [if_neg h1, (hc' n hn).2 h1]
  constructor
  · rw [get_item, hz]
  · rw [inBounds_iff]
    refine ⟨by rw [hc'len, hrank], ?_⟩
    intro i hi
    have hin : i < s.length := hrank ▸ hi
    by_cases h1 : a.shape.getD i 0 = 1
    · rw [(hc' i hin).1 h1, h1]
      omega
    · rw [(hc' i hin).2 h1]
      rcases hcompat i hin with he | h1'
      · rw [he]
        exact hc i hin
      · exact absurd h1' h1

theorem get_item_stretch_witness :
    (exB.shape.length = ([2, 3] : List Nat).length ∧
      ([1, 2] : List Nat).length = ([2, 3] : List Nat).length ∧
      ([0, 2] : List Nat).length = ([2, 3] : List Nat).length) ∧
    (get_item exB [1, 2] = lookupCoord exB [0, 2] ∧ inBounds exB.shape [0, 2]) :=
  ⟨⟨rfl, rfl, rfl⟩,
    get_item_stretch exB [2, 3] [1, 2] [0, 2] rfl rfl (by decide) (by decide) rfl
      (by decide)⟩

/-- Claim C9: on differing ranks the padded array the aligner produces
holds exactly the lower-rank input's elements in the same row-major order
(np.resize neither duplicates, truncates nor reorders here, since the
prepended size-1 axes keep the element count), and reading it at
(0,...,0,c1,...,ck) yields the original element at (c1,...,ck). -/
theorem match_dimensions_resize_preserves (a b : Arr)
    (h : a.shape.length ≠ b.shape.length)
    (hwf : (if a.shape.length ≤ b.shape.length then a else b).data.length =
      (if a.shape.length ≤ b.shape.length then a else b).shape.prod) :
    (match_dimensions a b).1.data =
      (if a.shape.length ≤ b.shape.length then a else b).data ∧
    ∀ c : List Nat,
      lookupCoord (match_dimensions a b).1
        (List.replicate
          ((if a.shape.length ≤ b.shape.length then b else a).shape.length -
            (if a.shape.length ≤ b.shape.length then a else b).shape.length) 0 ++ c) =
      lookupCoord (if a.shape.length ≤ b.shape.length then a else b) c := by
  have hdata : (match_dimensions a b).1.data =
      (if a.shape.length ≤ b.shape.length then a else b).data := by
    rw [match_dimensions_eq a b h]
    exact resize_data_eq _ _ (by rw [prod_replicate_one_append, hwf])
  refine ⟨hdata, ?_⟩
  intro c
  rw [lookupCoord, lookupCoord, hdata]
  rw [match_dimensions_eq a b h]
  rw [show (resize (if a.shape.length ≤ b.shape.length then a else b)
      (List.replicate
        ((if a.shape.length ≤ b.shape.length then b else a).shape.length -
          (if a.shape.length ≤ b.shape.length then a else b).shape.length) 1 ++
        (if a.shape.length ≤ b.shape.length then a else b).shape),
     if a.shape.length ≤ b.shape.length then b else a).1.shape =
    List.replicate
        ((if a.shape.length ≤ b.shape.length then b else a).shape.length -
          (if a.shape.length ≤ b.shape.length then a else b).shape.length) 1 ++
      (if a.shape.length ≤ b.shape.length then a else b).shape from rfl]
  rw [flatIndex_replicate_pad]

theorem match_dimensions_resize_preserves_witness :
    exA.shape.length ≠ exC.shape.length ∧
    (if exA.shape.length ≤ exC.shape.length then exA else exC).data.length =
      (if exA.shape.length ≤ exC.shape.length then exA else exC).shape.prod ∧
    ((match_dimensions exA exC).1.data =
      (if exA.shape.length ≤ exC.shape.length then exA else exC).data ∧
    ∀ c : List Nat,
      lookupCoord (match_dimensions exA exC).1
        (List.replicate
          ((if exA.shape.length ≤ exC.shape.length then exC else exA).shape.length -
            (if exA.shape.length ≤ exC.shape.length then exA else exC).shape.length) 0
          ++ c) =
      lookupCoord (if exA.shape.length ≤ exC.shape.length then exA else exC) c) :=
  ⟨by decide, by decide,
    match_dimensions_resize_preserves exA exC (by decide) (by decide)⟩

/-- Claim C10: zero-sized axes are accepted: on equal-rank shapes where
every axis pair is equal or has a 1 (0 allowed), the broadcast shape is
computed (a 0 paired with a 1 gives 0), and add succeeds, returning an
array of the broadcast shape with empty data whenever some axis is 0. -/
theorem add_zero_axes (a b : Arr)
    (hlen : a.shape.length = b.shape.length)
    (hcompat : ∀ p ∈ a.shape.zip b.shape, p.1 = p.2 ∨ p.1 = 1 ∨ p.2 = 1) :
    ∃ r, broadcasted_shape a.shape b.shape = .ok r ∧
      (∀ i, i < a.shape.length →
        (a.shape.getD i 0 = 0 ∨ b.shape.getD i 0 = 0) → r.getD i 0 = 0) ∧
      ∃ out, add a b = .ok out ∧ out.shape = r ∧
        ((∃ i, i < a.shape.length ∧
          (a.shape.getD i 0 = 0 ∨ b.shape.getD i 0 = 0)) → out.data = []) := by
  have hgood : ∀ p ∈ a.shape.zip b.shape, ¬ badAxis p.1 p.2 := by
    intro p hp
    rcases hcompat p hp with h | h | h <;> simp [badAxis, h]
  have hbs := broadcasted_shape_ok_of_compat a.shape b.shape hlen hgood
  have hposgetD : ∀ i, i < a.shape.length →
      (List.zipWith pickAxis a.shape b.shape).getD i 0 =
        pickAxis (a.shape.getD i 0) (b.shape.getD i 0) := by
    intro i hi
    have hib : i < b.shape.length := hlen ▸ hi
    have hzw : i < (List.zipWith pickAxis a.shape b.shape).length := by
      rw [List.length_zipWith]
      omega
    rw [List.getD_eq_getElem _ _ hzw, List.getElem_zipWith,
      ← List.getD_eq_getElem a.shape 0 hi, ← List.getD_eq_getElem b.shape 0 hib]
  have hzero : ∀ i, i < a.shape.length →
      (a.shape.getD i 0 = 0 ∨ b.shape.getD i 0 = 0) →
      (List.zipWith pickAxis a.shape b.shape).getD i 0 = 0 := by
    intro i hi hz
    have hib : i < b.shape.length := hlen ▸ hi
    have hzip : i < (a.shape.zip b.shape).length := by
      rw [List.length_zip]
      omega
    have hpos := hcompat ((a.shape.zip b.shape)[i]) (List.getElem_mem hzip)
    rw [List.getElem_zip, ← List.getD_eq_getElem a.shape 0 hi,
      ← List.getD_eq_getElem b.shape 0 hib] at hpos
    dsimp only at hpos
    rw [hposgetD i hi, pickAxis]
    split_ifs with hcond
    · rcases hz with hz | hz
      · exact hz
      · rcases hcond with hc | hc <;> omega
    · rw [not_or] at hcond
      rcases hz with hz | hz
      · rcases hpos with hp | hp | hp <;> omega
      · exact hz
  have hmd : match_dimensions a b = (a, b) := by
    rw [match_dimensions, if_pos hlen]
  refine ⟨List.zipWith pickAxis a.shape b.shape, hbs, hzero,
    ⟨List.zipWith pickAxis a.shape b.shape,
      (ndindex (List.zipWith pickAxis a.shape b.shape)).map
        (fun c => get_item a c + get_item b c)⟩, ?_, rfl, ?_⟩
  · simp only [add, hmd]
    rw [hbs]
  · rintro ⟨i, hi, hz⟩
    have hmemzero : (0 : Nat) ∈ List.zipWith pickAxis a.shape b.shape := by
      have hzw : i < (List.zipWith pickAxis a.shape b.shape).length := by
        rw [List.length_zipWith]
        omega
      have := hzero i hi hz
      rw [List.getD_eq_getElem _ _ hzw] at this
      exact this ▸ List.getElem_mem hzw
    apply List.eq_nil_of_length_eq_zero
    rw [List.length_map, ndindex_length]
    exact List.prod_eq_zero hmemzero

theorem add_zero_axes_witness :
    (⟨[0, 3], []⟩ : Arr).shape.length = exB.shape.length ∧
    (∀ p ∈ (⟨[0, 3], []⟩ : Arr).shape.zip exB.shape,
      p.1 = p.2 ∨ p.1 = 1 ∨ p.2 = 1) ∧
    (∃ r, broadcasted_shape (⟨[0, 3], []⟩ : Arr).shape exB.shape = .ok r ∧
      (∀ i, i < (⟨[0, 3], []⟩ : Arr).shape.length →
        ((⟨[0, 3], []⟩ : Arr).shape.getD i 0 = 0 ∨ exB.shape.getD i 0 = 0) →
          r.getD i 0 = 0) ∧
      ∃ out, add (⟨[0, 3], []⟩ : Arr) exB = .ok out ∧ out.shape = r ∧
        ((∃ i, i < (⟨[0, 3], []⟩ : Arr).shape.length ∧
          ((⟨[0, 3], []⟩ : Arr).shape.getD i 0 = 0 ∨ exB.shape.getD i 0 = 0)) →
          out.data = [])) :=
  ⟨rfl, by decide, add_zero_axes ⟨[0, 3], []⟩ exB rfl (by decide)⟩

/-- Claim C5: the store-passing adder never mutates any existing array in
the store — every pre-existing store entry (in particular both inputs)
keeps its shape and contents whether the call succeeds or fails — and on
success the result is the freshly allocated array appended at the end of
the store, distinct from every input index. -/
theorem add_no_mutation (store : List Arr) (i j m : Nat) (hm : m < store.length) :
    (addSt store i j).1.getD m ⟨[], []⟩ = store.getD m ⟨[], []⟩ ∧
    ∀ k, (addSt store i j).2 = .ok k → k = store.length := by
  simp only [addSt]
  cases hbs : broadcasted_shape
      (match_dimensions (store.getD i ⟨[], []⟩) (store.getD j ⟨[], []⟩)).1.shape
      (match_dimensions (store.getD i ⟨[], []⟩) (store.getD j ⟨[], []⟩)).2.shape with
  | error e =>
    refine ⟨rfl, ?_⟩
    intro k hk
    exact Except.noConfusion hk
  | ok s =>
    constructor
    · rw [foldl_writeAt_getD store.length _ _ m (by omega)]
      exact List.getD_append _ _ _ _ hm
    · intro k hk
      injection hk with hh
      exact hh.symm

theorem add_no_mutation_witness :
    0 < ([exA, exB] : List Arr).length ∧
    ((addSt [exA, exB] 0 1).1.getD 0 ⟨[], []⟩ = ([exA, exB] : List Arr).getD 0 ⟨[], []⟩ ∧
      ∀ k, (addSt [exA, exB] 0 1).2 = .ok k → k = ([exA, exB] : List Arr).length) :=
  ⟨by decide, add_no_mutation [exA, exB] 0 1 0 (by decide)⟩

end Broadcasting
